import Mathlib

/-!
Verification of the wikiparser core (`src/wm/title.rs`, `src/wm/mod.rs`).

Strings are embedded as lists of characters (`Str`).  Rust `usize` is
modelled as a 64-bit machine integer where its width matters (the bitwise
complement in the title-length check).  The external `url` and `csv` crates
are collaborators of the core; they are modelled to the extent the core
exercises them, as documented on the corresponding definitions.
-/

abbrev Str := List Char

/-- Rust `char::is_whitespace` (Unicode `White_Space`). -/
def isRustWs (c : Char) : Bool :=
  (0x09 ≤ c.toNat && c.toNat ≤ 0x0d) || c.toNat = 0x20 || c.toNat = 0x85 ||
  c.toNat = 0xa0 || c.toNat = 0x1680 || (0x2000 ≤ c.toNat && c.toNat ≤ 0x200a) ||
  c.toNat = 0x2028 || c.toNat = 0x2029 || c.toNat = 0x202f || c.toNat = 0x205f ||
  c.toNat = 0x3000

/-- Rust `char::is_ascii_alphabetic`. -/
def isAsciiAlpha (c : Char) : Bool :=
  (0x41 ≤ c.toNat && c.toNat ≤ 0x5a) || (0x61 ≤ c.toNat && c.toNat ≤ 0x7a)

def isAsciiUpper (c : Char) : Bool :=
  0x41 ≤ c.toNat && c.toNat ≤ 0x5a

def isAsciiLowerAlpha (c : Char) : Bool :=
  0x61 ≤ c.toNat && c.toNat ≤ 0x7a

/-- Rust `char::is_ascii_digit`. -/
def isAsciiDigit (c : Char) : Bool :=
  0x30 ≤ c.toNat && c.toNat ≤ 0x39

/-- Rust `str::trim_start`. -/
def trimStart (s : Str) : Str := s.dropWhile isRustWs

/-- Rust `str::trim_end`. -/
def trimEnd (s : Str) : Str := (s.reverse.dropWhile isRustWs).reverse

/-- Rust `str::trim`. -/
def trim (s : Str) : Str := trimEnd (trimStart s)

/-- Rust `str::split_once`: split at the first occurrence of `sep`. -/
def splitOnce (sep : Char) : Str → Option (Str × Str)
  | [] => none
  | c :: rest =>
    if c = sep then some ([], rest)
    else (splitOnce sep rest).map (fun p => (c :: p.1, p.2))

/-- Rust `str::starts_with` (first argument is the pattern). -/
def startsWith : Str → Str → Bool
  | [], _ => true
  | _, [] => false
  | p :: ps, c :: cs => p = c && startsWith ps cs

/-- Rust `str::strip_prefix` (first argument is the pattern). -/
def stripPre (p s : Str) : Option Str :=
  if startsWith p s then some (s.drop p.length) else none

/-- Rust `str::replace` for single-character patterns. -/
def replaceChar (a b : Char) (s : Str) : Str :=
  s.map (fun c => if c = a then b else c)

/-- Rust `str::to_ascii_lowercase` on one character. -/
def lowerChar (c : Char) : Char :=
  if 0x41 ≤ c.toNat && c.toNat ≤ 0x5a then Char.ofNat (c.toNat + 32) else c

/-- Rust `str::to_ascii_lowercase`. -/
def toAsciiLower (s : Str) : Str := s.map lowerChar

/-- UTF-8 byte width of one scalar value (Rust `char::len_utf8`). -/
def charBytes (c : Char) : Nat :=
  if c.toNat < 0x80 then 1 else if c.toNat < 0x800 then 2
  else if c.toNat < 0x10000 then 3 else 4

/-- Rust `str::len`: length in UTF-8 bytes. -/
def utf8Len (s : Str) : Nat := (s.map charBytes).sum

def natOfDigits (s : Str) : Nat :=
  s.foldl (fun n c => 10 * n + (c.toNat - 0x30)) 0

/-- Rust `str::parse::<usize>()` followed by `.ok()`: an optional leading sign,
then a non-empty run of ASCII digits, rejecting values outside `usize`. -/
def parseUsize (s : Str) : Option Nat :=
  let body := match s with
    | '+' :: rest => rest
    | other => other
  if body ≠ [] && body.all isAsciiDigit && natOfDigits body < 2 ^ 64 then
    some (natOfDigits body)
  else none

/-! ## Percent-decoding (the `urlencoding` crate's `decode`) -/

/-- Value of an ASCII hex digit, given as a byte. -/
def hexVal (b : Nat) : Option Nat :=
  if 0x30 ≤ b ∧ b ≤ 0x39 then some (b - 0x30)
  else if 0x41 ≤ b ∧ b ≤ 0x46 then some (b - 0x41 + 10)
  else if 0x61 ≤ b ∧ b ≤ 0x66 then some (b - 0x61 + 10)
  else none

/-- UTF-8 encoding of one scalar value, as bytes. -/
def utf8EncodeChar (c : Char) : List Nat :=
  let v := c.toNat
  if v < 0x80 then [v]
  else if v < 0x800 then [0xc0 + v / 64, 0x80 + v % 64]
  else if v < 0x10000 then [0xe0 + v / 4096, 0x80 + v / 64 % 64, 0x80 + v % 64]
  else [0xf0 + v / 262144, 0x80 + v / 4096 % 64, 0x80 + v / 64 % 64, 0x80 + v % 64]

def utf8Encode (s : Str) : List Nat := (s.map utf8EncodeChar).flatten

def isContByte (b : Nat) : Bool := 0x80 ≤ b && b ≤ 0xbf

/-- Strict UTF-8 decoding of a byte sequence (Rust `String::from_utf8`):
rejects bad leading bytes, truncated or malformed sequences, overlong
encodings, surrogates, and values above `U+10FFFF`. -/
def utf8Decode : List Nat → Option Str
  | [] => some []
  | b :: rest =>
    if b < 0x80 then (utf8Decode rest).map (fun s => Char.ofNat b :: s)
    else if b < 0xc2 then none
    else if b < 0xe0 then
      match rest with
      | b1 :: rest1 =>
        if isContByte b1 then
          (utf8Decode rest1).map (fun s => Char.ofNat ((b - 0xc0) * 64 + (b1 - 0x80)) :: s)
        else none
      | _ => none
    else if b < 0xf0 then
      match rest with
      | b1 :: b2 :: rest2 =>
        let v := (b - 0xe0) * 4096 + (b1 - 0x80) * 64 + (b2 - 0x80)
        if isContByte b1 && isContByte b2 && 0x800 ≤ v && ¬ (0xd800 ≤ v && v ≤ 0xdfff) then
          (utf8Decode rest2).map (fun s => Char.ofNat v :: s)
        else none
      | _ => none
    else if b < 0xf5 then
      match rest with
      | b1 :: b2 :: b3 :: rest3 =>
        let v := (b - 0xf0) * 262144 + (b1 - 0x80) * 4096 + (b2 - 0x80) * 64 + (b3 - 0x80)
        if isContByte b1 && isContByte b2 && isContByte b3 && 0x10000 ≤ v && v ≤ 0x10ffff then
          (utf8Decode rest3).map (fun s => Char.ofNat v :: s)
        else none
      | _ => none
    else none

/-- Byte-level percent decoding (the `urlencoding` crate): `%` followed by two
hex digits becomes the denoted byte; a `%` not followed by two hex digits is
kept literally and scanning resumes at the next byte. -/
def pctDecode : List Nat → List Nat
  | [] => []
  | 0x25 :: a :: b :: rest2 =>
    (match hexVal a, hexVal b with
     | some x, some y => (16 * x + y) :: pctDecode rest2
     | _, _ => 0x25 :: pctDecode (a :: b :: rest2))
  | 0x25 :: rest => 0x25 :: pctDecode rest
  | b :: rest => b :: pctDecode rest
termination_by l => l.length
decreasing_by all_goals (simp <;> omega)

/-- The `urlencoding` crate's `decode`: percent-decode the UTF-8 bytes and
re-validate as UTF-8 (`FromUtf8Error` on failure).  When the input holds no
`%` the crate returns the input unchanged (`Cow::Borrowed`). -/
def urldecode (s : Str) : Except Unit Str :=
  if s.contains '%' then
    match utf8Decode (pctDecode (utf8Encode s)) with
    | some t => Except.ok t
    | none => Except.error ()
  else Except.ok s

/-! ## The `url` crate (WHATWG URL parser), as the collaborator the core uses -/

inductive UrlParseError where
  | RelativeUrlWithoutBase
  | EmptyHost
  | InvalidDomainCharacter
  | InvalidPort
deriving DecidableEq

/-- The slice of a parsed URL the core reads back: `Url::host_str()` and
`Url::path()`. -/
structure Url where
  host : Option Str
  path : Str
deriving DecidableEq

/-- A valid scheme token: an ASCII letter followed by ASCII
letters/digits/`+`/`-`/`.`. -/
def validScheme (s : Str) : Bool :=
  match s with
  | [] => false
  | c :: rest =>
    isAsciiAlpha c &&
    rest.all (fun d => isAsciiAlpha d || isAsciiDigit d || d = '+' || d = '-' || d = '.')

/-- Code points the model accepts inside a (special-scheme) domain: printable
ASCII outside the WHATWG forbidden-host set, with `%` also excluded because
percent-encoded or non-ASCII (IDNA) hosts are outside this model. -/
def validHostChar (c : Char) : Bool :=
  0x21 ≤ c.toNat && c.toNat ≤ 0x7e &&
  ¬ (c.toNat = 0x23 || c.toNat = 0x25 || c.toNat = 0x2f || c.toNat = 0x3a ||
     c.toNat = 0x3c || c.toNat = 0x3e || c.toNat = 0x3f || c.toNat = 0x40 ||
     c.toNat = 0x5b || c.toNat = 0x5c || c.toNat = 0x5d || c.toNat = 0x5e ||
     c.toNat = 0x7c)

def notAtChar (c : Char) : Bool := ¬ c.toNat = 0x40

/-- The part of an authority after the last `@` (the host-port part; any
userinfo before it is dropped). -/
def afterLastAt (l : Str) : Str :=
  (l.reverse.takeWhile notAtChar).reverse

def isAuthDelim (c : Char) : Bool :=
  c.toNat = 0x2f || c.toNat = 0x5c || c.toNat = 0x3f || c.toNat = 0x23

def isSlash (c : Char) : Bool := c.toNat = 0x2f || c.toNat = 0x5c

def notAuthDelim (c : Char) : Bool := ¬ isAuthDelim c

/-- Stops a path at the query or fragment delimiter. -/
def isPathChar (c : Char) : Bool := ¬ (c.toNat = 0x3f || c.toNat = 0x23)

/-- WHATWG "C0 control or space", removed from both ends of the input. -/
def isC0OrSpace (c : Char) : Bool := c.toNat ≤ 0x20

/-- ASCII tab or newline, removed everywhere in the input. -/
def isTabOrNl (c : Char) : Bool :=
  c.toNat = 0x09 || c.toNat = 0x0a || c.toNat = 0x0d

def notTabNl (c : Char) : Bool := ¬ isTabOrNl c

/-- The WHATWG input cleanup performed by `Url::parse` before parsing:
strip leading and trailing C0 controls and spaces, then remove every ASCII
tab and newline. -/
def urlStrip (s : Str) : Str :=
  (((s.dropWhile isC0OrSpace).reverse.dropWhile isC0OrSpace).reverse).filter notTabNl

/-- Split on `/` and `\` (the segment separators of a special-scheme
path). -/
def splitSlashes : Str → List Str
  | [] => [[]]
  | c :: rest =>
    if isSlash c then [] :: splitSlashes rest
    else
      match splitSlashes rest with
      | seg :: segs => (c :: seg) :: segs
      | [] => [[c]]

/-- Serialize path segments, `/`-separated. -/
def joinSegs : List Str → Str
  | [] => []
  | [seg] => seg
  | seg :: segs => seg ++ '/' :: joinSegs segs

/-- WHATWG single-dot path segment: `.` or a case-insensitive `%2e`. -/
def isSingleDot (seg : Str) : Bool :=
  seg = ".".data || toAsciiLower seg = "%2e".data

/-- WHATWG double-dot path segment: `..` or one of its percent-encoded
spellings. -/
def isDoubleDot (seg : Str) : Bool :=
  seg = "..".data || toAsciiLower seg = ".%2e".data ||
  toAsciiLower seg = "%2e.".data || toAsciiLower seg = "%2e%2e".data

/-- The WHATWG path state over the slash-split segments: a double-dot
segment pops the previous segment, a single-dot segment is dropped, and a
final dot segment leaves a trailing empty segment. -/
def normSegs (out : List Str) : List Str → List Str
  | [] => out
  | [seg] =>
    if isDoubleDot seg then out.dropLast ++ [[]]
    else if isSingleDot seg then out ++ [[]]
    else out ++ [seg]
  | seg :: rest =>
    if isDoubleDot seg then normSegs out.dropLast rest
    else if isSingleDot seg then normSegs out rest
    else normSegs (out ++ [seg]) rest

/-- Model of the external `url` crate's `Url::parse` (WHATWG URL), restricted
to the absolute forms this repository feeds it:
`scheme:[//]host[:port]path[?query][#fragment]`.  The input is first cleaned
per WHATWG (C0/space trim at the ends, tab/newline removal everywhere).
Special-scheme (`http`/`https`) inputs get an authority whose host must be a
non-empty ASCII domain (lowercased), and a path whose `/`- or `\`-separated
segments undergo dot-segment normalization (`.`/`..` and their `%2e`
spellings); other schemes are parsed opaquely (authority only after `//`,
host kept verbatim).  Outside the model (and diverging from the crate
there): percent-encoded or IDNA hosts, the percent-encoding of the path
serialization (observationally cancelled by the percent-decoding the caller
applies to percent-free titles), the `file` scheme, and base-relative
references. -/
def Url.parse (s : Str) : Except UrlParseError Url :=
  let s := urlStrip s
  match splitOnce ':' s with
  | none => Except.error UrlParseError.RelativeUrlWithoutBase
  | some (schemeRaw, afterScheme) =>
    if ¬ validScheme schemeRaw then Except.error UrlParseError.RelativeUrlWithoutBase
    else
      let scheme := toAsciiLower schemeRaw
      if scheme = "http".data ∨ scheme = "https".data then
        let rest := afterScheme.dropWhile isSlash
        let auth := rest.takeWhile notAuthDelim
        let afterAuth := rest.dropWhile notAuthDelim
        let hostport := afterLastAt auth
        let (host, port) := match splitOnce ':' hostport with
          | none => (hostport, none)
          | some (h, p) => (h, some p)
        if host = [] then Except.error UrlParseError.EmptyHost
        else if ¬ host.all validHostChar then Except.error UrlParseError.InvalidDomainCharacter
        else if (match port with
                 | some p => p ≠ [] && (¬ p.all isAsciiDigit || decide (65535 < natOfDigits p))
                 | none => false : Bool) then
          Except.error UrlParseError.InvalidPort
        else
          let pathRaw := afterAuth.takeWhile isPathChar
          let path :=
            if pathRaw = [] then "/".data
            else '/' :: joinSegs (normSegs [] (splitSlashes (pathRaw.drop 1)))
          Except.ok { host := some (toAsciiLower host), path := path }
      else
        if startsWith "//".data afterScheme then
          let rest := afterScheme.drop 2
          let auth := rest.takeWhile notAuthDelim
          let afterAuth := rest.dropWhile notAuthDelim
          let hostport := afterLastAt auth
          let host := match splitOnce ':' hostport with
            | none => hostport
            | some (h, _) => h
          let path := afterAuth.takeWhile isPathChar
          Except.ok { host := if host = [] then none else some host, path := path }
        else
          Except.ok { host := none,
                      path := afterScheme.takeWhile isPathChar }

/-! ## `src/wm/title.rs` -/

/-- `ParseTitleError` from `src/wm/title.rs`. -/
inductive ParseTitleError where
  | Empty
  | NoTitle
  | TitleLong
  | NoLang
  | LangBadChar
  | MissingColon
  | Url (e : UrlParseError)
  | UrlDecode
  | NoHost
  | NoSubdomain
  | BadDomain
  | BadPath
  | ShortPath
deriving DecidableEq

/-- `Title` from `src/wm/title.rs`: a normalized wikipedia article title. -/
structure Title where
  lang : Str
  name : Str
deriving DecidableEq

/-- `Title::normalize_title`. -/
def Title.normalize_title (title : Str) : Str :=
  replaceChar ' ' '_' (trim title)

/-- `Title::from_title`.  The length guard is the source's
`if !title.len() < 256`, where `!` is the bitwise complement of the 64-bit
`usize` byte length. -/
def Title.from_title (title lang : Str) : Except ParseTitleError Title :=
  let title := trim title
  if title = [] then Except.error ParseTitleError.NoTitle
  else if 2 ^ 64 - 1 - utf8Len title < 256 then Except.error ParseTitleError.TitleLong
  else
    let lang := trim lang
    if lang = [] then Except.error ParseTitleError.NoLang
    else if lang.any (fun c => ¬ (isAsciiAlpha c || c = '-')) then
      Except.error ParseTitleError.LangBadChar
    else
      let lang := toAsciiLower lang
      let name := Title.normalize_title title
      Except.ok { lang := lang, name := name }

/-- `Title::from_url`. -/
def Title.from_url (url : Str) : Except ParseTitleError Title :=
  let url := trim url
  if url = [] then Except.error ParseTitleError.Empty
  else
    match Url.parse url with
    | Except.error e => Except.error (ParseTitleError.Url e)
    | Except.ok u =>
      match u.host with
      | none => Except.error ParseTitleError.NoHost
      | some hostStr =>
        match splitOnce '.' hostStr with
        | none => Except.error ParseTitleError.NoSubdomain
        | some (subdomain, host0) =>
          let host := (stripPre "m.".data host0).getD host0
          if host ≠ "wikipedia.org".data then Except.error ParseTitleError.BadDomain
          else
            let lang := subdomain
            let path := u.path
            match splitOnce '/' ((stripPre "/".data path).getD path) with
            | none => Except.error ParseTitleError.ShortPath
            | some (root, title) =>
              if root ≠ "wiki".data then Except.error ParseTitleError.BadPath
              else
                match urldecode title with
                | Except.error _ => Except.error ParseTitleError.UrlDecode
                | Except.ok title => Title.from_title title lang

/-- `Title::from_osm_tag`. -/
def Title.from_osm_tag (tag : Str) : Except ParseTitleError Title :=
  let tag := trim tag
  if tag = [] then Except.error ParseTitleError.Empty
  else
    match splitOnce ':' tag with
    | none => Except.error ParseTitleError.MissingColon
    | some (lang0, title0) =>
      let lang := trimStart lang0
      let title := trimStart title0
      if lang = "http".data ∨ lang = "https".data then Title.from_url tag
      else if startsWith "http://".data title || startsWith "https://".data title then
        Title.from_url title
      else Title.from_title title lang

/-! ## `src/wm/qid.rs` (not among the provided sources) -/

/-- Modelled from the spec: the failure cases of identifier parsing named in
§4.1 — wrong leading marker character, empty body, non-digit body.  The
parser itself lives in `src/wm/qid.rs`, which is not part of the provided
sources. -/
inductive ParseQidError where
  | BadMarker
  | EmptyBody
  | NonDigit
deriving DecidableEq

/-- Modelled from the spec: an opaque validated identifier (QID),
"constructed only through validated parsing" (§3). -/
structure Qid where
  id : Nat
deriving DecidableEq

/-- Modelled from the spec: `Qid::from_str` of the missing `src/wm/qid.rs`.
Per §4.1 it trims whitespace, then validates a strict grammar — the leading
marker character `Q` followed by a non-empty all-digit body — returning a
typed failure naming the violated rule. -/
def Qid.from_str (s : Str) : Except ParseQidError Qid :=
  match trim s with
  | [] => Except.error ParseQidError.BadMarker
  | c :: body =>
    if c ≠ 'Q' then Except.error ParseQidError.BadMarker
    else if body = [] then Except.error ParseQidError.EmptyBody
    else if body.all isAsciiDigit then Except.ok { id := natOfDigits body }
    else Except.error ParseQidError.NonDigit

deriving instance DecidableEq for Except

/-! ## `src/wm/mod.rs` -/

/-- `parse_wikidata_file`, applied to the lines of the file once the
whole-file read has succeeded (a read failure is fatal and produces no set).
Each line is parsed as a QID; failures are logged and dropped; successes are
collected into a set. -/
def parse_wikidata_file (lines : List Str) : Finset Qid :=
  (lines.filterMap (fun line => (Qid.from_str line).toOption)).toFinset

/-- `parse_wikipedia_file`, applied to the lines of the file once the
whole-file read has succeeded.  Each line is parsed as a URL-form title;
failures are logged and dropped; successes are collected into a set. -/
def parse_wikipedia_file (lines : List Str) : Finset Title :=
  (lines.filterMap (fun line => (Title.from_url line).toOption)).toFinset

/-- An error returned by the `csv` crate's `read_record`: either an I/O
failure (`is_io_error`) or a record-decoding failure. -/
inductive CsvErr where
  | IoError
  | BadRecord
deriving DecidableEq

/-- `ParseErrorKind` from `src/wm/mod.rs`. -/
inductive ParseErrorKind where
  | Title (e : ParseTitleError)
  | Qid (e : ParseQidError)
  | Tsv (e : CsvErr)
deriving DecidableEq

/-- `ParseLineError` from `src/wm/mod.rs`. -/
structure ParseLineError where
  text : Str
  line : Nat
  osm_id : Option Nat
  kind : ParseErrorKind
deriving DecidableEq

/-- The fatal (`anyhow`) failures of `parse_osm_tag_file`: a missing
mandatory column, or an I/O error bailed out of the row loop. -/
inductive FatalErr where
  | MissingWikidata
  | MissingWikipedia
  | Csv (e : CsvErr)
deriving DecidableEq

/-- The caller-owned mutable state of `parse_osm_tag_file`: the two output
sets and the diagnostic accumulator (`HashSet`s are modelled as `Finset`s;
the optional `line_errors` vector as a list, `None` behaving as a list that
is discarded). -/
structure TagState where
  qids : Finset Qid
  titles : Finset Title
  errors : List ParseLineError

/-- One record produced by the `csv` reader, which the spec consumes as an
external capability ("delimiter-aware record splitting", §1).  `data` is the
outcome of `read_record`; `line` is the line number the reader reports
(`rdr.position().line()`) when the diagnostics for this record are built.
Successfully decoded records carry one cell per header column (the
non-flexible reader rejects rows of any other width as decode errors). -/
structure TagRow where
  line : Nat
  data : Except CsvErr (List Str)

/-- One step of the header scan: the `match` arm of the header loop of
`parse_osm_tag_file` for one `(column, title)` pair. -/
def scanStep (acc : Option Nat × Option Nat × Option Nat) (p : Nat × Str) :
    Option Nat × Option Nat × Option Nat :=
  if p.2 = "wikidata".data then (some p.1, acc.2.1, acc.2.2)
  else if p.2 = "wikipedia".data then (acc.1, some p.1, acc.2.2)
  else if p.2 = "@id".data then (acc.1, acc.2.1, some p.1)
  else acc

/-- The header scan of `parse_osm_tag_file`: one pass over the header names,
remembering the (last) zero-based index of `wikidata`, `wikipedia` and
`@id`. -/
def scanHeader (headers : List Str) : Option Nat × Option Nat × Option Nat :=
  headers.enum.foldl scanStep (none, none, none)

/-- The per-record body of the row loop of `parse_osm_tag_file`: read the
optional `@id` cell, then try the `wikidata` cell, then the `wikipedia`
cell, each non-empty cell either inserting into its set or appending one
diagnostic. -/
def processCells (qc tc : Nat) (oc : Option Nat) (line : Nat) (cells : List Str)
    (st : TagState) : TagState :=
  let osm_id := oc.bind (fun i => parseUsize (cells.getD i []))
  let qcell := trim (cells.getD qc [])
  let st :=
    if qcell = [] then st
    else
      match Qid.from_str qcell with
      | Except.ok q => { st with qids := insert q st.qids }
      | Except.error e =>
        { st with errors := st.errors ++ [⟨qcell, line, osm_id, ParseErrorKind.Qid e⟩] }
  let tcell := trim (cells.getD tc [])
  if tcell = [] then st
  else
    match Title.from_osm_tag tcell with
    | Except.ok t => { st with titles := insert t st.titles }
    | Except.error e =>
      { st with errors := st.errors ++ [⟨tcell, line, osm_id, ParseErrorKind.Title e⟩] }

/-- The row loop of `parse_osm_tag_file`: an I/O error aborts the call, a
record-decoding error yields one diagnostic (empty text, no row id) and the
loop continues, a decoded record is processed by `processCells`. -/
def runRows (qc tc : Nat) (oc : Option Nat) :
    List TagRow → TagState → TagState × Except FatalErr Unit
  | [], st => (st, Except.ok ())
  | r :: rest, st =>
    match r.data with
    | Except.error CsvErr.IoError => (st, Except.error (FatalErr.Csv CsvErr.IoError))
    | Except.error CsvErr.BadRecord =>
      runRows qc tc oc rest
        { st with errors := st.errors ++ [⟨[], r.line, none, ParseErrorKind.Tsv CsvErr.BadRecord⟩] }
    | Except.ok cells => runRows qc tc oc rest (processCells qc tc oc r.line cells st)

/-- `parse_osm_tag_file`, applied to the header record and the subsequent
data records delivered by the `csv` capability.  Returns the final state of
the caller-owned sets and accumulator together with the call's result; on a
fatal error the state is returned as it stood, mirroring the `&mut`
out-parameters of the source. -/
def parse_osm_tag_file (headers : List Str) (rows : List TagRow) (st : TagState) :
    TagState × Except FatalErr Unit :=
  match (scanHeader headers).1 with
  | none => (st, Except.error FatalErr.MissingWikidata)
  | some qc =>
    match (scanHeader headers).2.1 with
    | none => (st, Except.error FatalErr.MissingWikipedia)
    | some tc => runRows qc tc (scanHeader headers).2.2 rows st

/-! ## Specification predicates -/

/-- First character, if any, is not whitespace. -/
def noWsHead (s : Str) : Prop := ∀ c, s.head? = some c → isRustWs c = false

instance (s : Str) : Decidable (noWsHead s) := by
  unfold noWsHead
  cases s with
  | nil => exact isTrue (by intro c h; cases h)
  | cons a t =>
    cases h : isRustWs a with
    | false => exact isTrue (by intro c hc; cases hc; exact h)
    | true => exact isFalse (by intro hall; have := hall a rfl; rw [h] at this; cases this)

/-- The normalization invariant of a `Title` (spec §3): the language is
non-empty, made of ASCII letters and hyphens, lowercased; the name is
non-empty, without surrounding whitespace and without space characters. -/
def TitleInv (t : Title) : Prop :=
  t.lang ≠ [] ∧
  (∀ c ∈ t.lang, isAsciiAlpha c = true ∨ c = '-') ∧
  (∀ c ∈ t.lang, isAsciiUpper c = false) ∧
  t.name ≠ [] ∧ noWsHead t.name ∧ noWsHead t.name.reverse ∧
  ' ' ∉ t.name

instance (t : Title) : Decidable (TitleInv t) := by
  unfold TitleInv; infer_instance

/-- The "valid `(title, lang)` pair" of spec §8, read off §3/§4.2: a trimmed
non-empty title strictly under 256 UTF-8 bytes whose characters survive a
URL round trip verbatim (no query/fragment/percent delimiters, no control
characters the URL grammar strips, no backslashes the special-path grammar
rewrites to slashes, no `.`/`..` path segments it normalizes away) and which
is not itself scheme-prefixed, and a non-empty lowercase ASCII
letters-and-hyphens language code that is not a URL scheme token. -/
def ValidPair (title lang : Str) : Prop :=
  title ≠ [] ∧ trimStart title = title ∧ trimEnd title = title ∧
  utf8Len title < 256 ∧
  (∀ c ∈ title, c.toNat ≠ 0x23 ∧ c.toNat ≠ 0x3f ∧ c.toNat ≠ 0x25) ∧
  (∀ c ∈ title, 0x21 ≤ c.toNat ∨ c = ' ') ∧
  '\\' ∉ title ∧
  (∀ seg ∈ splitSlashes (Title.normalize_title title),
    isSingleDot seg = false ∧ isDoubleDot seg = false) ∧
  startsWith "http://".data title = false ∧
  startsWith "https://".data title = false ∧
  lang ≠ [] ∧ (∀ c ∈ lang, isAsciiLowerAlpha c = true ∨ c = '-') ∧
  lang ≠ "http".data ∧ lang ≠ "https".data

instance (title lang : Str) : Decidable (ValidPair title lang) := by
  unfold ValidPair; infer_instance

/-! ## List and string lemmas -/

theorem splitOnce_cons_self (sep : Char) (l : Str) :
    splitOnce sep (sep :: l) = some ([], l) := by
  simp [splitOnce]

theorem splitOnce_append {sep : Char} {a : Str} (b : Str) (h : sep ∉ a) :
    splitOnce sep (a ++ b) = (splitOnce sep b).map (fun p => (a ++ p.1, p.2)) := by
  induction a with
  | nil =>
    simp only [List.nil_append]
    cases splitOnce sep b <;> simp
  | cons c t ih =>
    have hc : c ≠ sep := fun hh => h (hh ▸ List.mem_cons_self c t)
    have ht : sep ∉ t := fun hh => h (List.mem_cons_of_mem c hh)
    show splitOnce sep (c :: (t ++ b)) = _
    rw [splitOnce, if_neg hc, ih ht]
    cases splitOnce sep b <;> rfl

theorem splitOnce_eq_none {sep : Char} {l : Str} (h : sep ∉ l) :
    splitOnce sep l = none := by
  induction l with
  | nil => rfl
  | cons c t ih =>
    have hc : c ≠ sep := fun hh => h (hh ▸ List.mem_cons_self c t)
    have ht : sep ∉ t := fun hh => h (List.mem_cons_of_mem c hh)
    simp [splitOnce, if_neg hc, ih ht]

theorem splitOnce_append_cons {sep : Char} {a : Str} (b : Str) (h : sep ∉ a) :
    splitOnce sep (a ++ sep :: b) = some (a, b) := by
  rw [splitOnce_append _ h, splitOnce_cons_self]; simp

theorem takeWhile_append_all {p : Char → Bool} {a : Str} (b : Str)
    (h : ∀ x ∈ a, p x = true) :
    (a ++ b).takeWhile p = a ++ b.takeWhile p := by
  induction a with
  | nil => rfl
  | cons c t ih =>
    have hc := h c (List.mem_cons_self c t)
    simp only [List.cons_append, List.takeWhile_cons, hc, if_true]
    rw [ih (fun x hx => h x (List.mem_cons_of_mem c hx))]

theorem dropWhile_append_all {p : Char → Bool} {a : Str} (b : Str)
    (h : ∀ x ∈ a, p x = true) :
    (a ++ b).dropWhile p = b.dropWhile p := by
  induction a with
  | nil => rfl
  | cons c t ih =>
    have hc := h c (List.mem_cons_self c t)
    simp only [List.cons_append, List.dropWhile_cons, hc, if_true]
    exact ih (fun x hx => h x (List.mem_cons_of_mem c hx))

theorem takeWhile_cons_false {p : Char → Bool} {c : Char} (l : Str) (h : p c = false) :
    (c :: l).takeWhile p = [] := by
  simp [List.takeWhile_cons, h]

theorem dropWhile_cons_false {p : Char → Bool} {c : Char} (l : Str) (h : p c = false) :
    (c :: l).dropWhile p = c :: l := by
  simp [List.dropWhile_cons, h]

theorem takeWhile_eq_self {p : Char → Bool} {l : Str} (h : ∀ x ∈ l, p x = true) :
    l.takeWhile p = l := by
  induction l with
  | nil => rfl
  | cons c t ih =>
    simp only [List.takeWhile_cons, h c (List.mem_cons_self c t), if_true]
    rw [ih (fun x hx => h x (List.mem_cons_of_mem c hx))]

theorem dropWhile_eq_self {p : Char → Bool} {l : Str}
    (h : ∀ c, l.head? = some c → p c = false) : l.dropWhile p = l := by
  cases l with
  | nil => rfl
  | cons c t => exact dropWhile_cons_false t (h c rfl)

theorem head_false_of_dropWhile_eq_self {p : Char → Bool} {l : Str}
    (h : l.dropWhile p = l) : ∀ c, l.head? = some c → p c = false := by
  intro c hc
  cases l with
  | nil => cases hc
  | cons a t =>
    cases hc
    by_contra hp
    have hp' : p c = true := by revert hp; cases p c <;> simp
    simp only [List.dropWhile_cons, hp', if_true] at h
    have hlen := congrArg List.length h
    have hle := (List.dropWhile_sublist (l := t) p).length_le
    simp at hlen
    omega

theorem map_eq_self_of {f : Char → Char} {l : Str} (h : ∀ x ∈ l, f x = x) :
    l.map f = l := by
  induction l with
  | nil => rfl
  | cons c t ih =>
    simp only [List.map_cons, h c (List.mem_cons_self c t)]
    rw [ih (fun x hx => h x (List.mem_cons_of_mem c hx))]

theorem trimStart_eq_self {l : Str} (h : noWsHead l) : trimStart l = l :=
  dropWhile_eq_self h

theorem trimEnd_eq_self {l : Str} (h : noWsHead l.reverse) : trimEnd l = l := by
  unfold trimEnd
  rw [dropWhile_eq_self h, List.reverse_reverse]

theorem trim_eq_self {l : Str} (h1 : noWsHead l) (h2 : noWsHead l.reverse) : trim l = l := by
  unfold trim
  rw [trimStart_eq_self h1, trimEnd_eq_self h2]

theorem noWsHead_of_trimStart {l : Str} (h : trimStart l = l) : noWsHead l :=
  head_false_of_dropWhile_eq_self h

theorem noWsLast_of_trimEnd {l : Str} (h : trimEnd l = l) : noWsHead l.reverse := by
  have h2 : l.reverse.dropWhile isRustWs = l.reverse := by
    have h3 := congrArg List.reverse h
    unfold trimEnd at h3
    rwa [List.reverse_reverse] at h3
  exact head_false_of_dropWhile_eq_self h2

theorem head?_append_left {a : Str} (b : Str) (h : a ≠ []) :
    (a ++ b).head? = a.head? := by
  cases a with
  | nil => exact absurd rfl h
  | cons c t => rfl

theorem noWsHead_append_left {a b : Str} (ha : a ≠ []) (h : noWsHead a) :
    noWsHead (a ++ b) := by
  intro c hc
  rw [head?_append_left b ha] at hc
  exact h c hc

/-! ## Character-class lemmas -/

/-- Characters of an (already lowercased) language code. -/
def LangChar (c : Char) : Prop := isAsciiLowerAlpha c = true ∨ c = '-'

instance (c : Char) : Decidable (LangChar c) := by
  unfold LangChar; infer_instance

theorem langChar_toNat {c : Char} (h : LangChar c) :
    0x61 ≤ c.toNat ∧ c.toNat ≤ 0x7a ∨ c.toNat = 0x2d := by
  rcases h with h | h
  · left; simpa [isAsciiLowerAlpha] using h
  · right; subst h; rfl

theorem langChar_not_ws {c : Char} (h : LangChar c) : isRustWs c = false := by
  have hv := langChar_toNat h
  simp only [isRustWs, Bool.or_eq_false_iff, Bool.and_eq_false_iff, decide_eq_false_iff_not]
  omega

theorem langChar_not_slash {c : Char} (h : LangChar c) : isSlash c = false := by
  have hv := langChar_toNat h
  simp only [isSlash, Bool.or_eq_false_iff, decide_eq_false_iff_not]
  omega

theorem langChar_authdelim {c : Char} (h : LangChar c) : notAuthDelim c = true := by
  have hv := langChar_toNat h
  simp only [notAuthDelim, isAuthDelim, Bool.or_eq_true, decide_eq_true_eq,
    decide_eq_false_iff_not, not_or]
  omega

theorem langChar_valid_host {c : Char} (h : LangChar c) : validHostChar c = true := by
  have hv := langChar_toNat h
  simp only [validHostChar, Bool.and_eq_true, decide_eq_true_eq, Bool.or_eq_true,
    Bool.not_eq_true', Bool.or_eq_false_iff, decide_eq_false_iff_not]
  omega

theorem langChar_lower_fix {c : Char} (h : LangChar c) : lowerChar c = c := by
  have hv := langChar_toNat h
  unfold lowerChar
  rw [if_neg]
  simp only [Bool.and_eq_true, decide_eq_true_eq, not_and]
  omega

theorem langChar_ne_colon {c : Char} (h : LangChar c) : c ≠ ':' := by
  intro he; subst he
  exact absurd h (by decide)

theorem langChar_ne_dot {c : Char} (h : LangChar c) : c ≠ '.' := by
  intro he; subst he
  exact absurd h (by decide)

theorem langChar_at_pred {c : Char} (h : LangChar c) : notAtChar c = true := by
  have hv := langChar_toNat h
  simp only [notAtChar, decide_eq_true_eq]
  omega

theorem langChar_alpha_or_hyphen {c : Char} (h : LangChar c) :
    isAsciiAlpha c = true ∨ c = '-' := by
  rcases h with h | h
  · left
    have hv : 0x61 ≤ c.toNat ∧ c.toNat ≤ 0x7a := by simpa [isAsciiLowerAlpha] using h
    simp only [isAsciiAlpha, Bool.or_eq_true, Bool.and_eq_true, decide_eq_true_eq]
    omega
  · right; exact h

theorem langChar_not_upper {c : Char} (h : LangChar c) : isAsciiUpper c = false := by
  have hv := langChar_toNat h
  simp only [isAsciiUpper, Bool.and_eq_false_iff, decide_eq_false_iff_not]
  omega

theorem dropWhile_head_false {p : Char → Bool} {l : Str} :
    ∀ c, (l.dropWhile p).head? = some c → p c = false := by
  induction l with
  | nil => intro c hc; cases hc
  | cons a t ih =>
    intro c hc
    rw [List.dropWhile_cons] at hc
    by_cases ha : p a = true
    · simp only [ha, if_true] at hc
      exact ih c hc
    · have ha' : p a = false := by revert ha; cases p a <;> simp
      simp only [ha', Bool.false_eq_true, if_false, List.head?_cons, Option.some_inj] at hc
      subst hc
      exact ha'

theorem dropWhile_idem (p : Char → Bool) (l : Str) :
    (l.dropWhile p).dropWhile p = l.dropWhile p :=
  dropWhile_eq_self dropWhile_head_false

theorem noWsHead_trimStart (l : Str) : noWsHead (trimStart l) :=
  dropWhile_head_false

theorem noWsLast_trim (l : Str) : noWsHead (trim l).reverse := by
  unfold trim trimEnd
  rw [List.reverse_reverse]
  exact dropWhile_head_false

theorem prefix_head? {a b : Str} (h : a <+: b) (ha : a ≠ []) : b.head? = a.head? := by
  obtain ⟨t, rfl⟩ := h
  exact head?_append_left t ha

theorem trimEnd_prefix_self (l : Str) : trimEnd l <+: l := by
  unfold trimEnd
  exact List.reverse_suffix.mp (by rw [List.reverse_reverse]; exact List.dropWhile_suffix _)

theorem noWsHead_trimEnd {l : Str} (h : noWsHead l) : noWsHead (trimEnd l) := by
  intro c hc
  have hne : trimEnd l ≠ [] := by intro he; rw [he] at hc; cases hc
  have heq := prefix_head? (trimEnd_prefix_self l) hne
  exact h c (heq ▸ hc)

theorem noWsHead_trim (l : Str) : noWsHead (trim l) :=
  noWsHead_trimEnd (noWsHead_trimStart l)

theorem trim_idem (l : Str) : trim (trim l) = trim l := by
  have h1 : trimStart (trim l) = trim l := trimStart_eq_self (noWsHead_trim l)
  have h2 : trimEnd (trim l) = trim l := trimEnd_eq_self (noWsLast_trim l)
  calc trim (trim l) = trimEnd (trimStart (trim l)) := rfl
    _ = trimEnd (trim l) := by rw [h1]
    _ = trim l := h2

theorem noWsHead_replaceChar {l : Str} (h : noWsHead l) :
    noWsHead (replaceChar ' ' '_' l) := by
  intro c hc
  unfold replaceChar at hc
  rw [List.head?_map] at hc
  cases hl : l.head? with
  | none => rw [hl] at hc; cases hc
  | some a =>
    rw [hl] at hc
    simp only [Option.map_some', Option.some_inj] at hc
    have ha := h a hl
    have hne : a ≠ ' ' := by intro he; subst he; exact absurd ha (by decide)
    rw [if_neg hne] at hc
    subst hc
    exact ha

theorem noWsLast_replaceChar {l : Str} (h : noWsHead l.reverse) :
    noWsHead (replaceChar ' ' '_' l).reverse := by
  have : (replaceChar ' ' '_' l).reverse = replaceChar ' ' '_' l.reverse := by
    unfold replaceChar
    exact (List.map_reverse _ l).symm
  rw [this]
  exact noWsHead_replaceChar h

theorem space_not_mem_replaceChar (l : Str) : ' ' ∉ replaceChar ' ' '_' l := by
  intro hm
  unfold replaceChar at hm
  rw [List.mem_map] at hm
  obtain ⟨a, _, hfa⟩ := hm
  by_cases h : a = ' ' <;> simp [h] at hfa

theorem mem_replaceChar {c : Char} {l : Str} (h : c ∈ replaceChar ' ' '_' l) :
    c = '_' ∨ c ∈ l := by
  unfold replaceChar at h
  rw [List.mem_map] at h
  obtain ⟨a, ha, hfa⟩ := h
  by_cases he : a = ' '
  · left; rw [he] at hfa; simpa using hfa.symm
  · right; rw [if_neg he] at hfa; exact hfa ▸ ha

theorem utf8Len_replaceChar (l : Str) :
    utf8Len (replaceChar ' ' '_' l) = utf8Len l := by
  unfold utf8Len replaceChar
  rw [List.map_map]
  congr 1
  apply List.map_congr_left
  intro a _
  by_cases h : a = ' ' <;> simp [h, charBytes]

theorem replaceChar_ne_nil {l : Str} (h : l ≠ []) : replaceChar ' ' '_' l ≠ [] := by
  unfold replaceChar
  simpa using h

theorem toNat_ofNat_valid {n : Nat} (h : n < 0xd800) : (Char.ofNat n).toNat = n := by
  have hv : n.isValidChar := Or.inl h
  simp [Char.ofNat, hv, Char.toNat, Char.ofNatAux]
  rfl

theorem lowerChar_langChar {c : Char} (h : isAsciiAlpha c = true ∨ c = '-') :
    LangChar (lowerChar c) := by
  rcases h with h | h
  · have hv : (0x41 ≤ c.toNat ∧ c.toNat ≤ 0x5a) ∨ (0x61 ≤ c.toNat ∧ c.toNat ≤ 0x7a) := by
      simpa [isAsciiAlpha] using h
    unfold lowerChar
    rcases hv with hv | hv
    · rw [if_pos (by simp; omega)]
      left
      have ht : (Char.ofNat (c.toNat + 32)).toNat = c.toNat + 32 :=
        toNat_ofNat_valid (by omega)
      simp only [isAsciiLowerAlpha, Bool.and_eq_true, decide_eq_true_eq, ht]
      omega
    · rw [if_neg (by simp; omega)]
      left
      simp only [isAsciiLowerAlpha, Bool.and_eq_true, decide_eq_true_eq]
      omega
  · subst h
    right
    rfl

theorem toAsciiLower_ne_nil {l : Str} (h : l ≠ []) : toAsciiLower l ≠ [] := by
  unfold toAsciiLower
  simpa using h

theorem lang_any_false {l : Str} (h : ∀ c ∈ l, isAsciiAlpha c = true ∨ c = '-') :
    (l.any (fun c => ¬ (isAsciiAlpha c || c = '-'))) = false := by
  rw [List.any_eq_false]
  intro x hx
  rcases h x hx with hc | hc <;> simp [hc]

/-- Success shape of `Title::from_title` on well-formed input. -/
theorem from_title_eq {title lang : Str}
    (h1 : trim title ≠ [])
    (h2 : utf8Len (trim title) < 256)
    (h3 : trim lang ≠ [])
    (h4 : ∀ c ∈ trim lang, isAsciiAlpha c = true ∨ c = '-') :
    Title.from_title title lang =
      Except.ok ⟨toAsciiLower (trim lang), replaceChar ' ' '_' (trim title)⟩ := by
  simp only [Title.from_title]
  rw [if_neg h1, if_neg (by omega : ¬ (2 ^ 64 - 1 - utf8Len (trim title) < 256)),
    if_neg h3, if_neg (by rw [lang_any_false h4]; exact Bool.false_ne_true)]
  unfold Title.normalize_title
  rw [trim_idem]

theorem lang_of_any_false {l : Str}
    (h : ¬ (l.any (fun c => ¬ (isAsciiAlpha c || c = '-'))) = true) :
    ∀ c ∈ l, isAsciiAlpha c = true ∨ c = '-' := by
  intro c hc
  by_contra hcon
  rw [not_or] at hcon
  apply h
  rw [List.any_eq_true]
  refine ⟨c, hc, ?_⟩
  have h1 : isAsciiAlpha c = false := by
    revert hcon; cases isAsciiAlpha c <;> simp
  have h2 : c ≠ '-' := hcon.2
  simp [h1, h2]

theorem from_title_inv {t l : Str} {r : Title}
    (h : Title.from_title t l = Except.ok r) : TitleInv r := by
  simp only [Title.from_title] at h
  split at h
  · exact Except.noConfusion h
  · split at h
    · exact Except.noConfusion h
    · split at h
      · exact Except.noConfusion h
      · split at h
        · exact Except.noConfusion h
        · rename_i h1 _ h3 h4
          injection h with h
          subst h
          have hlang := lang_of_any_false h4
          refine ⟨toAsciiLower_ne_nil h3, ?_, ?_, ?_, ?_, ?_, ?_⟩
          · intro c hc
            obtain ⟨x, hx, rfl⟩ := List.mem_map.mp hc
            exact langChar_alpha_or_hyphen (lowerChar_langChar (hlang x hx))
          · intro c hc
            obtain ⟨x, hx, rfl⟩ := List.mem_map.mp hc
            exact langChar_not_upper (lowerChar_langChar (hlang x hx))
          · show Title.normalize_title (trim t) ≠ []
            unfold Title.normalize_title
            rw [trim_idem]
            exact replaceChar_ne_nil h1
          · show noWsHead (Title.normalize_title (trim t))
            unfold Title.normalize_title
            rw [trim_idem]
            exact noWsHead_replaceChar (noWsHead_trim t)
          · show noWsHead (Title.normalize_title (trim t)).reverse
            unfold Title.normalize_title
            rw [trim_idem]
            exact noWsLast_replaceChar (noWsLast_trim t)
          · show ' ' ∉ Title.normalize_title (trim t)
            unfold Title.normalize_title
            rw [trim_idem]
            exact space_not_mem_replaceChar (trim t)

theorem from_url_inv {u : Str} {r : Title}
    (h : Title.from_url u = Except.ok r) : TitleInv r := by
  simp only [Title.from_url] at h
  split at h
  · exact Except.noConfusion h
  · split at h
    · exact Except.noConfusion h
    · split at h
      · exact Except.noConfusion h
      · split at h
        · exact Except.noConfusion h
        · split at h
          · exact Except.noConfusion h
          · split at h
            · exact Except.noConfusion h
            · split at h
              · exact Except.noConfusion h
              · split at h
                · exact Except.noConfusion h
                · exact from_title_inv h

theorem from_osm_tag_inv {g : Str} {r : Title}
    (h : Title.from_osm_tag g = Except.ok r) : TitleInv r := by
  simp only [Title.from_osm_tag] at h
  split at h
  · exact Except.noConfusion h
  · split at h
    · exact Except.noConfusion h
    · split at h
      · exact from_url_inv h
      · split at h
        · exact from_url_inv h
        · exact from_title_inv h

/-! ## Claim theorems -/

set_option maxRecDepth 100000 in
/-- C1: `Title::from_title` is claimed to reject every trimmed title of 256 or
more encoded bytes with `TitleLong`.  The source's guard `!title.len() < 256`
takes the bitwise complement of the byte length before comparing, so a
256-byte title is accepted: the constructed `Title` carries a 256-byte name,
contradicting the claimed bound. -/
theorem title_length_check_never_rejects :
    Title.from_title (List.replicate 256 'a') "en".data =
      Except.ok ⟨"en".data, List.replicate 256 'a'⟩ ∧
    utf8Len (List.replicate 256 'a') = 256 := by
  constructor
  · decide
  · decide

/-- C8: list-file parsing is a set construction — the result is invariant
under permutation of the input lines, and a duplicated line contributes one
element, for both the QID list reader and the title list reader. -/
theorem list_file_readers_set_semantics :
    (∀ l1 l2 : List Str, l1.Perm l2 → parse_wikidata_file l1 = parse_wikidata_file l2) ∧
    (∀ l1 l2 : List Str, l1.Perm l2 → parse_wikipedia_file l1 = parse_wikipedia_file l2) ∧
    (∀ (line : Str) (rest : List Str),
        parse_wikidata_file (line :: line :: rest) = parse_wikidata_file (line :: rest)) ∧
    (∀ (line : Str) (rest : List Str),
        parse_wikipedia_file (line :: line :: rest) = parse_wikipedia_file (line :: rest)) := by
  refine ⟨?_, ?_, ?_, ?_⟩
  · intro l1 l2 h
    exact List.toFinset_eq_of_perm _ _ (h.filterMap _)
  · intro l1 l2 h
    exact List.toFinset_eq_of_perm _ _ (h.filterMap _)
  · intro line rest
    unfold parse_wikidata_file
    cases h : (Qid.from_str line).toOption <;>
      simp [List.filterMap_cons, h]
  · intro line rest
    unfold parse_wikipedia_file
    cases h : (Title.from_url line).toOption <;>
      simp [List.filterMap_cons, h]

set_option maxRecDepth 100000 in
/-- Witness for C8 at concrete inputs: two QID lines permuted, and one URL
line duplicated (via the permutation `[u, u] ~ [u, u]` being reflexive the
duplicate part is exercised through the theorem's last component). -/
theorem list_file_readers_set_semantics_witness :
    parse_wikidata_file ["Q1".data, "Q2".data] = parse_wikidata_file ["Q2".data, "Q1".data] ∧
    parse_wikipedia_file ["https://en.wikipedia.org/wiki/A".data,
        "https://en.wikipedia.org/wiki/B".data] =
      parse_wikipedia_file ["https://en.wikipedia.org/wiki/B".data,
        "https://en.wikipedia.org/wiki/A".data] ∧
    parse_wikidata_file ["Q1".data, "Q1".data] = parse_wikidata_file ["Q1".data] :=
  ⟨list_file_readers_set_semantics.1 _ _ (by decide),
   list_file_readers_set_semantics.2.1 _ _ (by decide),
   list_file_readers_set_semantics.2.2.1 "Q1".data []⟩

/-- C9: every `Title` built by any of the three parsers satisfies the
normalization invariant: non-empty all-letters-or-hyphen lowercase language,
non-empty name without surrounding whitespace or interior spaces. -/
theorem title_parsers_establish_invariant :
    (∀ t l r, Title.from_title t l = Except.ok r → TitleInv r) ∧
    (∀ u r, Title.from_url u = Except.ok r → TitleInv r) ∧
    (∀ g r, Title.from_osm_tag g = Except.ok r → TitleInv r) :=
  ⟨fun _ _ _ h => from_title_inv h,
   fun _ _ h => from_url_inv h,
   fun _ _ h => from_osm_tag_inv h⟩

set_option maxRecDepth 100000 in
/-- Witness for C9: the invariant instantiated through each parser at a
concrete success. -/
theorem title_parsers_establish_invariant_witness :
    TitleInv ⟨"en".data, "Article_Title".data⟩ ∧
    TitleInv ⟨"de".data, "Breil/Brigels".data⟩ ∧
    TitleInv ⟨"fr".data, "Foo".data⟩ :=
  ⟨title_parsers_establish_invariant.1 "Article Title".data " EN ".data _ (by decide),
   title_parsers_establish_invariant.2.1 "https://de.wikipedia.org/wiki/Breil/Brigels".data _
     (by decide),
   title_parsers_establish_invariant.2.2 "fr:Foo".data _ (by decide)⟩

set_option maxRecDepth 100000 in
/-- C7: in `Title::from_url` only the first path segment is consumed as the
`wiki` root; the whole remainder, further slashes included, becomes the
article name, so the two URLs below both succeed and yield distinct
titles. -/
theorem url_path_slashes_belong_to_title :
    Title.from_url "https://de.wikipedia.org/wiki/Breil/Brigels".data =
      Except.ok ⟨"de".data, "Breil/Brigels".data⟩ ∧
    Title.from_url "https://de.wikipedia.org/wiki/Breil".data =
      Except.ok ⟨"de".data, "Breil".data⟩ ∧
    (⟨"de".data, "Breil/Brigels".data⟩ : Title) ≠ ⟨"de".data, "Breil".data⟩ := by
  refine ⟨by decide, by decide, by decide⟩

/-! ## Header-scan lemmas -/

theorem snd_mem_of_mem_enum {l : List Str} {p : Nat × Str} (h : p ∈ l.enum) :
    p.2 ∈ l := by
  have hm : p.2 ∈ l.enum.map Prod.snd := List.mem_map_of_mem Prod.snd h
  rwa [List.enum_map_snd] at hm

theorem foldl_scanStep_fst {l : List (Nat × Str)} :
    ∀ acc, (∀ p ∈ l, p.2 ≠ "wikidata".data) → (l.foldl scanStep acc).1 = acc.1 := by
  induction l with
  | nil => intro acc _; rfl
  | cons a t ih =>
    intro acc h
    rw [List.foldl_cons, ih _ (fun p hp => h p (List.mem_cons_of_mem a hp))]
    have ha := h a (List.mem_cons_self a t)
    by_cases hw : a.2 = "wikidata".data
    · exact absurd hw ha
    · by_cases hp : a.2 = "wikipedia".data
      · simp [scanStep, hw, hp]
      · by_cases hi : a.2 = "@id".data <;> simp [scanStep, hw, hp, hi]

theorem foldl_scanStep_snd {l : List (Nat × Str)} :
    ∀ acc, (∀ p ∈ l, p.2 ≠ "wikipedia".data) → (l.foldl scanStep acc).2.1 = acc.2.1 := by
  induction l with
  | nil => intro acc _; rfl
  | cons a t ih =>
    intro acc h
    rw [List.foldl_cons, ih _ (fun p hp => h p (List.mem_cons_of_mem a hp))]
    have ha := h a (List.mem_cons_self a t)
    by_cases hw : a.2 = "wikidata".data
    · simp [scanStep, hw]
    · by_cases hp : a.2 = "wikipedia".data
      · exact absurd hp ha
      · by_cases hi : a.2 = "@id".data <;> simp [scanStep, hw, hp, hi]

theorem scanHeader_fst_none {headers : List Str} (h : "wikidata".data ∉ headers) :
    (scanHeader headers).1 = none := by
  unfold scanHeader
  exact foldl_scanStep_fst _ (fun p hp he => h (he ▸ snd_mem_of_mem_enum hp))

theorem scanHeader_snd_none {headers : List Str} (h : "wikipedia".data ∉ headers) :
    (scanHeader headers).2.1 = none := by
  unfold scanHeader
  exact foldl_scanStep_snd _ (fun p hp he => h (he ▸ snd_mem_of_mem_enum hp))

/-- C4: a header without the `wikidata` column (or without the `wikipedia`
column) makes `parse_osm_tag_file` fail the whole call before any data row
is processed: the identifier set, the title set and the error accumulator
are returned exactly as they were handed in. -/
theorem missing_mandatory_column_is_fatal :
    (∀ (headers : List Str) (rows : List TagRow) (st : TagState),
        "wikidata".data ∉ headers →
        parse_osm_tag_file headers rows st = (st, Except.error FatalErr.MissingWikidata)) ∧
    (∀ (headers : List Str) (rows : List TagRow) (st : TagState),
        "wikipedia".data ∉ headers →
        (parse_osm_tag_file headers rows st).1 = st ∧
        ((parse_osm_tag_file headers rows st).2 = Except.error FatalErr.MissingWikidata ∨
         (parse_osm_tag_file headers rows st).2 = Except.error FatalErr.MissingWikipedia)) := by
  constructor
  · intro headers rows st h
    unfold parse_osm_tag_file
    rw [scanHeader_fst_none h]
  · intro headers rows st h
    unfold parse_osm_tag_file
    cases hq : (scanHeader headers).1 with
    | none => exact ⟨rfl, Or.inl rfl⟩
    | some qc =>
      rw [scanHeader_snd_none h]
      exact ⟨rfl, Or.inr rfl⟩

set_option maxRecDepth 100000 in
/-- Witness for C4: a header with only `wikipedia` (no `wikidata`), and one
with only `wikidata` (no `wikipedia`), each with a pending data row and a
non-empty starting state that is returned untouched. -/
theorem missing_mandatory_column_is_fatal_witness :
    parse_osm_tag_file ["wikipedia".data] [⟨2, Except.ok ["en:Foo".data]⟩]
        ⟨∅, ∅, []⟩ = (⟨∅, ∅, []⟩, Except.error FatalErr.MissingWikidata) ∧
    (parse_osm_tag_file ["wikidata".data] [⟨2, Except.ok ["Q1".data]⟩] ⟨∅, ∅, []⟩).1 =
        ⟨∅, ∅, []⟩ ∧
    ((parse_osm_tag_file ["wikidata".data] [⟨2, Except.ok ["Q1".data]⟩] ⟨∅, ∅, []⟩).2 =
        Except.error FatalErr.MissingWikidata ∨
     (parse_osm_tag_file ["wikidata".data] [⟨2, Except.ok ["Q1".data]⟩] ⟨∅, ∅, []⟩).2 =
        Except.error FatalErr.MissingWikipedia) :=
  ⟨missing_mandatory_column_is_fatal.1 _ _ _ (by decide),
   (missing_mandatory_column_is_fatal.2 _ _ _ (by decide)).1,
   (missing_mandatory_column_is_fatal.2 _ _ _ (by decide)).2⟩

/-- C3: with both mandatory columns present, a decoded row whose identifier
cell is non-empty but malformed loses only that cell: exactly one diagnostic
is appended for it — carrying the cell text (as trimmed for parsing) and the
row's reported line number and row id — the same row's valid title cell is
still parsed and inserted, the identifier set is untouched by the row, and
the loop continues with the remaining rows. -/
theorem tag_row_bad_qid_is_isolated
    (headers : List Str) (rest : List TagRow) (st : TagState)
    (qc tc : Nat) (ln : Nat) (cells : List Str)
    (qe : ParseQidError) (t : Title)
    (h1 : (scanHeader headers).1 = some qc)
    (h2 : (scanHeader headers).2.1 = some tc)
    (hq : trim (cells.getD qc []) ≠ [])
    (hqe : Qid.from_str (trim (cells.getD qc [])) = Except.error qe)
    (ht : trim (cells.getD tc []) ≠ [])
    (hte : Title.from_osm_tag (trim (cells.getD tc [])) = Except.ok t) :
    parse_osm_tag_file headers (⟨ln, Except.ok cells⟩ :: rest) st =
      runRows qc tc (scanHeader headers).2.2 rest
        { st with
          titles := insert t st.titles,
          errors := st.errors ++
            [⟨trim (cells.getD qc []), ln,
              ((scanHeader headers).2.2).bind (fun i => parseUsize (cells.getD i [])),
              ParseErrorKind.Qid qe⟩] } := by
  unfold parse_osm_tag_file
  rw [h1, h2]
  simp only [runRows]
  congr 1
  simp only [processCells, hqe, hte]
  rw [if_neg hq, if_neg ht]

set_option maxRecDepth 100000 in
/-- Witness for C3: header `[@id, wikidata, wikipedia]`, one row whose
identifier cell `W1` is malformed while its title cell `en:Foo` is valid —
the title is inserted, one diagnostic with the cell text, line 2 and row id 7
is appended, and the loop proceeds with the (empty) remainder. -/
theorem tag_row_bad_qid_is_isolated_witness :
    parse_osm_tag_file ["@id".data, "wikidata".data, "wikipedia".data]
        [⟨2, Except.ok ["7".data, "W1".data, "en:Foo".data]⟩] ⟨∅, ∅, []⟩ =
      runRows 1 2 (some 0) []
        ⟨∅, insert (⟨"en".data, "Foo".data⟩ : Title) ∅,
          [⟨"W1".data, 2, some 7, ParseErrorKind.Qid ParseQidError.BadMarker⟩]⟩ :=
  tag_row_bad_qid_is_isolated
    ["@id".data, "wikidata".data, "wikipedia".data] [] ⟨∅, ∅, []⟩ 1 2 2
    ["7".data, "W1".data, "en:Foo".data] ParseQidError.BadMarker
    ⟨"en".data, "Foo".data⟩ (by decide) (by decide) (by decide) (by decide)
    (by decide) (by decide)

/-- C5: a tagged string whose right side (after the first colon) starts with
a URL scheme is handed wholesale to URL parsing — the tag's left-side
language prefix plays no further part, so the resulting language is the one
embedded in the URL, as the concrete `de:`-tagged English URL shows. -/
theorem tag_with_url_delegates_discarding_lang :
    (∀ tag lang title : Str,
        trim tag = lang ++ ':' :: title →
        ':' ∉ lang →
        trimStart lang ≠ "http".data →
        trimStart lang ≠ "https".data →
        (startsWith "http://".data (trimStart title) = true ∨
         startsWith "https://".data (trimStart title) = true) →
        Title.from_osm_tag tag = Title.from_url (trimStart title)) ∧
    Title.from_osm_tag "de:https://en.m.wikipedia.org/wiki/Article_Title#Section".data =
      Except.ok ⟨"en".data, "Article_Title".data⟩ := by
  constructor
  · intro tag lang title htr hcol h1 h2 hu
    have hb : (startsWith "http://".data (trimStart title) ||
        startsWith "https://".data (trimStart title)) = true := by
      rcases hu with hu | hu <;> simp [hu]
    simp only [Title.from_osm_tag, htr, splitOnce_append_cons title hcol]
    rw [if_neg (by simp), if_neg (not_or.mpr ⟨h1, h2⟩), if_pos hb]
  · decide

set_option maxRecDepth 100000 in
/-- Witness for C5: the `de:`-tagged mobile URL delegates to URL parsing of
the substring after the colon. -/
theorem tag_with_url_delegates_discarding_lang_witness :
    Title.from_osm_tag "de:https://en.m.wikipedia.org/wiki/Article_Title#Section".data =
      Title.from_url
        (trimStart "https://en.m.wikipedia.org/wiki/Article_Title#Section".data) :=
  tag_with_url_delegates_discarding_lang.1
    "de:https://en.m.wikipedia.org/wiki/Article_Title#Section".data "de".data
    "https://en.m.wikipedia.org/wiki/Article_Title#Section".data
    (by decide) (by decide) (by decide) (by decide) (Or.inr (by decide))

/-- C6: `Title::from_url` fails with the dedicated variant whenever the
parsed URL's host is not a language subdomain of wikipedia.org — no dot at
all gives `NoSubdomain`, a host whose part after the first dot (after
stripping an optional `m.` prefix) is not `wikipedia.org` gives `BadDomain`
— and whenever the path is not a `wiki` root segment plus remainder — no
second segment gives `ShortPath`, a non-`wiki` root gives `BadPath`; in
particular the two concrete URLs of the claim fail with `ShortPath` and
`BadDomain`. -/
theorem from_url_rejects_bad_domain_and_path :
    (∀ (s : Str) (u : Url) (h : Str),
        trim s ≠ [] → Url.parse (trim s) = Except.ok u → u.host = some h →
        splitOnce '.' h = none →
        Title.from_url s = Except.error ParseTitleError.NoSubdomain) ∧
    (∀ (s : Str) (u : Url) (h sub rest : Str),
        trim s ≠ [] → Url.parse (trim s) = Except.ok u → u.host = some h →
        splitOnce '.' h = some (sub, rest) →
        (stripPre "m.".data rest).getD rest ≠ "wikipedia.org".data →
        Title.from_url s = Except.error ParseTitleError.BadDomain) ∧
    (∀ (s : Str) (u : Url) (h sub rest : Str),
        trim s ≠ [] → Url.parse (trim s) = Except.ok u → u.host = some h →
        splitOnce '.' h = some (sub, rest) →
        (stripPre "m.".data rest).getD rest = "wikipedia.org".data →
        splitOnce '/' ((stripPre "/".data u.path).getD u.path) = none →
        Title.from_url s = Except.error ParseTitleError.ShortPath) ∧
    (∀ (s : Str) (u : Url) (h sub rest root rem : Str),
        trim s ≠ [] → Url.parse (trim s) = Except.ok u → u.host = some h →
        splitOnce '.' h = some (sub, rest) →
        (stripPre "m.".data rest).getD rest = "wikipedia.org".data →
        splitOnce '/' ((stripPre "/".data u.path).getD u.path) = some (root, rem) →
        root ≠ "wiki".data →
        Title.from_url s = Except.error ParseTitleError.BadPath) ∧
    Title.from_url "https://en.wikipedia.org/not_a_wiki_page".data =
      Except.error ParseTitleError.ShortPath ∧
    Title.from_url "https://wikidata.org/wiki/Q12345".data =
      Except.error ParseTitleError.BadDomain := by
  refine ⟨?_, ?_, ?_, ?_, by decide, by decide⟩
  · intro s u h h0 hp hh hsplit
    simp only [Title.from_url, hp, hh, hsplit]
    rw [if_neg h0]
  · intro s u h sub rest h0 hp hh hsplit hbad
    simp only [Title.from_url, hp, hh, hsplit]
    rw [if_neg h0, if_pos hbad]
  · intro s u h sub rest h0 hp hh hsplit hgood hpath
    simp only [Title.from_url, hp, hh, hsplit, hpath]
    rw [if_neg h0, if_neg (by simp [hgood])]
  · intro s u h sub rest root rem h0 hp hh hsplit hgood hpath hroot
    simp only [Title.from_url, hp, hh, hsplit, hpath]
    rw [if_neg h0, if_neg (by simp [hgood]), if_pos hroot]

set_option maxRecDepth 100000 in
/-- Witness for C6: the wrong-domain and short-path parts applied at the
claim's two URLs. -/
theorem from_url_rejects_bad_domain_and_path_witness :
    Title.from_url "https://wikidata.org/wiki/Q12345".data =
      Except.error ParseTitleError.BadDomain ∧
    Title.from_url "https://en.wikipedia.org/not_a_wiki_page".data =
      Except.error ParseTitleError.ShortPath :=
  ⟨from_url_rejects_bad_domain_and_path.2.1
      "https://wikidata.org/wiki/Q12345".data
      ⟨some "wikidata.org".data, "/wiki/Q12345".data⟩
      "wikidata.org".data "wikidata".data "org".data
      (by decide) (by decide) (by decide) (by decide) (by decide),
   from_url_rejects_bad_domain_and_path.2.2.1
      "https://en.wikipedia.org/not_a_wiki_page".data
      ⟨some "en.wikipedia.org".data, "/not_a_wiki_page".data⟩
      "en.wikipedia.org".data "en".data "wikipedia.org".data
      (by decide) (by decide) (by decide) (by decide) (by decide) (by decide)⟩

theorem validHostChar_not_slash {c : Char} (h : validHostChar c = true) :
    isSlash c = false := by
  simp only [validHostChar, Bool.and_eq_true, decide_eq_true_eq] at h
  obtain ⟨⟨ha, hb⟩, hc⟩ := h
  simp only [Bool.or_eq_true, decide_eq_true_eq, not_or] at hc
  simp only [isSlash, Bool.or_eq_false_iff, decide_eq_false_iff_not]
  omega

theorem afterLastAt_eq_self {l : Str} (h : ∀ c ∈ l, notAtChar c = true) :
    afterLastAt l = l := by
  unfold afterLastAt
  rw [takeWhile_eq_self (fun c hc => h c (List.mem_reverse.mp hc)), List.reverse_reverse]

theorem char_eq_of_toNat {c d : Char} (h : c.toNat = d.toNat) : c = d :=
  Char.ext (UInt32.ext h)

theorem ge21_isC0OrSpace {c : Char} (h : 0x21 ≤ c.toNat) : isC0OrSpace c = false := by
  simp only [isC0OrSpace, decide_eq_false_iff_not]
  omega

theorem ge21_notTabNl {c : Char} (h : 0x21 ≤ c.toNat) : notTabNl c = true := by
  simp only [notTabNl, decide_eq_true_eq, isTabOrNl, Bool.or_eq_true, not_or]
  omega

theorem validHostChar_ge {c : Char} (h : validHostChar c = true) : 0x21 ≤ c.toNat := by
  simp only [validHostChar, Bool.and_eq_true, decide_eq_true_eq] at h
  exact h.1.1

theorem urlStrip_eq_self {l : Str}
    (h1 : ∀ c, l.head? = some c → isC0OrSpace c = false)
    (h2 : ∀ c, l.reverse.head? = some c → isC0OrSpace c = false)
    (h3 : ∀ c ∈ l, notTabNl c = true) :
    urlStrip l = l := by
  unfold urlStrip
  rw [dropWhile_eq_self h1, dropWhile_eq_self h2, List.reverse_reverse,
    List.filter_eq_self.mpr h3]

theorem splitSlashes_ne_nil (s : Str) : splitSlashes s ≠ [] := by
  cases s with
  | nil => simp [splitSlashes]
  | cons c rest =>
    simp only [splitSlashes]
    split
    · simp
    · split <;> simp

theorem splitSlashes_sep {a : Str} (b : Str) (h : ∀ c ∈ a, isSlash c = false) :
    splitSlashes (a ++ '/' :: b) = a :: splitSlashes b := by
  induction a with
  | nil =>
    show splitSlashes ('/' :: b) = [] :: splitSlashes b
    rw [splitSlashes, if_pos (by decide : isSlash '/' = true)]
  | cons c t ih =>
    have hc := h c (List.mem_cons_self c t)
    show splitSlashes (c :: (t ++ '/' :: b)) = (c :: t) :: splitSlashes b
    rw [splitSlashes, if_neg (by simp [hc]),
      ih (fun x hx => h x (List.mem_cons_of_mem c hx))]

theorem normSegs_id {segs : List Str}
    (h : ∀ seg ∈ segs, isSingleDot seg = false ∧ isDoubleDot seg = false) :
    ∀ out, normSegs out segs = out ++ segs := by
  induction segs with
  | nil => intro out; simp [normSegs]
  | cons seg rest ih =>
    intro out
    have hs := h seg (List.mem_cons_self seg rest)
    cases rest with
    | nil => simp [normSegs, hs.1, hs.2]
    | cons b bs =>
      have ih2 := ih (fun s hs2 => h s (List.mem_cons_of_mem seg hs2))
      simp only [normSegs, hs.1, hs.2, Bool.false_eq_true, if_false, ih2]
      simp

theorem joinSegs_splitSlashes {s : Str} (h : '\\' ∉ s) :
    joinSegs (splitSlashes s) = s := by
  induction s with
  | nil => rfl
  | cons c rest ih =>
    have hrest : '\\' ∉ rest := fun hm => h (List.mem_cons_of_mem c hm)
    have ihr := ih hrest
    obtain ⟨s0, s1, hsp⟩ := List.exists_cons_of_ne_nil (splitSlashes_ne_nil rest)
    by_cases hc : isSlash c = true
    · have hcc : c = '/' := by
        have hne : c ≠ '\\' := fun he => h (he ▸ List.mem_cons_self c rest)
        simp only [isSlash, Bool.or_eq_true, decide_eq_true_eq] at hc
        rcases hc with hc | hc
        · exact char_eq_of_toNat (show c.toNat = ('/').toNat from hc)
        · exact absurd (char_eq_of_toNat (show c.toNat = ('\\').toNat from hc)) hne
      subst hcc
      rw [show splitSlashes ('/' :: rest) = [] :: splitSlashes rest by
        rw [splitSlashes, if_pos (by decide : isSlash '/' = true)], hsp]
      show '/' :: joinSegs (s0 :: s1) = '/' :: rest
      rw [← hsp, ihr]
    · have hcf : isSlash c = false := by revert hc; cases isSlash c <;> simp
      rw [show splitSlashes (c :: rest) = (c :: s0) :: s1 by
        rw [splitSlashes, if_neg (by simp [hcf]), hsp]]
      cases s1 with
      | nil =>
        show c :: s0 = c :: rest
        rw [hsp] at ihr
        rw [show joinSegs [s0] = s0 from rfl] at ihr
        rw [ihr]
      | cons a b =>
        show (c :: s0) ++ '/' :: joinSegs (a :: b) = c :: rest
        rw [hsp] at ihr
        show c :: (s0 ++ '/' :: joinSegs (a :: b)) = c :: rest
        rw [show s0 ++ '/' :: joinSegs (a :: b) = joinSegs (s0 :: a :: b) from rfl, ihr]

/-- `Url::parse` on a well-formed `https` URL with a clean host and a
rooted path free of backslashes and dot segments: the input cleanup is the
identity, the host is returned verbatim (it is already lowercase) and the
path runs unchanged to the end of the input. -/
theorem url_parse_https (host tail : Str)
    (h6 : host ≠ [])
    (h1 : ∀ c ∈ host, notAuthDelim c = true)
    (h2 : ∀ c ∈ host, notAtChar c = true)
    (h3 : ':' ∉ host)
    (h4 : ∀ c ∈ host, validHostChar c = true)
    (h5 : ∀ c ∈ host, lowerChar c = c)
    (h7 : ∀ c ∈ tail, isPathChar c = true)
    (h8 : tail ≠ [])
    (h9 : ∀ c ∈ tail, 0x21 ≤ c.toNat)
    (h10 : '\\' ∉ tail)
    (h11 : ∀ seg ∈ splitSlashes tail, isSingleDot seg = false ∧ isDoubleDot seg = false) :
    Url.parse ("https://".data ++ host ++ '/' :: tail) =
      Except.ok ⟨some host, '/' :: tail⟩ := by
  obtain ⟨c0, t0, rfl⟩ : ∃ c0 t0, host = c0 :: t0 := by
    cases host with
    | nil => exact absurd rfl h6
    | cons a b => exact ⟨a, b, rfl⟩
  have hsplit : splitOnce ':' ("https://".data ++ (c0 :: t0) ++ '/' :: tail) =
      some ("https".data, '/' :: '/' :: ((c0 :: t0) ++ '/' :: tail)) := by
    show splitOnce ':' ("https".data ++ ':' :: ('/' :: '/' :: ((c0 :: t0) ++ '/' :: tail))) =
      some ("https".data, '/' :: '/' :: ((c0 :: t0) ++ '/' :: tail))
    exact splitOnce_append_cons _ (by decide)
  have hslash0 : isSlash c0 = false := validHostChar_not_slash (h4 c0 (List.mem_cons_self c0 t0))
  have hdrop : ('/' :: '/' :: ((c0 :: t0) ++ '/' :: tail)).dropWhile isSlash =
      (c0 :: t0) ++ '/' :: tail := by
    rw [List.dropWhile_cons, if_pos (by decide), List.dropWhile_cons, if_pos (by decide)]
    exact dropWhile_cons_false _ hslash0
  have hauth : ((c0 :: t0) ++ '/' :: tail).takeWhile notAuthDelim = c0 :: t0 := by
    rw [takeWhile_append_all _ h1, takeWhile_cons_false _ (by decide)]
    simp
  have hafter : ((c0 :: t0) ++ '/' :: tail).dropWhile notAuthDelim = '/' :: tail := by
    rw [dropWhile_append_all _ h1]
    exact dropWhile_cons_false _ (by decide)
  have hat : afterLastAt (c0 :: t0) = c0 :: t0 := afterLastAt_eq_self h2
  have hcolon : splitOnce ':' (c0 :: t0) = none := splitOnce_eq_none h3
  have hall : (c0 :: t0).all validHostChar = true := List.all_eq_true.mpr h4
  have hpath : ('/' :: tail).takeWhile isPathChar = '/' :: tail :=
    takeWhile_eq_self (by
      intro x hx
      rcases List.mem_cons.mp hx with hx | hx
      · subst hx; decide
      · exact h7 x hx)
  have hlower : toAsciiLower (c0 :: t0) = c0 :: t0 := map_eq_self_of h5
  have hlit : ∀ c ∈ ("https://".data : Str), notTabNl c = true := by decide
  have hstrip : urlStrip ("https://".data ++ (c0 :: t0) ++ '/' :: tail) =
      "https://".data ++ (c0 :: t0) ++ '/' :: tail := by
    apply urlStrip_eq_self
    · intro c hc
      rw [show ("https://".data ++ (c0 :: t0) ++ '/' :: tail).head? = some 'h' from rfl] at hc
      cases hc
      decide
    · intro c hc
      rw [show "https://".data ++ (c0 :: t0) ++ '/' :: tail =
          ("https://".data ++ (c0 :: t0) ++ ['/']) ++ tail by simp,
        List.reverse_append,
        head?_append_left _ (by simpa using h8)] at hc
      exact ge21_isC0OrSpace (h9 c (List.mem_reverse.mp (List.mem_of_mem_head? hc)))
    · intro c hc
      rcases List.mem_append.mp hc with hc | hc
      · rcases List.mem_append.mp hc with hc | hc
        · exact hlit c hc
        · exact ge21_notTabNl (validHostChar_ge (h4 c hc))
      · rcases List.mem_cons.mp hc with rfl | hc
        · decide
        · exact ge21_notTabNl (h9 c hc)
  simp only [Url.parse, hstrip, hsplit]
  rw [if_neg (by decide)]
  rw [if_pos (Or.inr (by decide))]
  simp only [hdrop, hauth, hafter, hat, hcolon]
  rw [if_neg (by simp), if_neg (by simp [hall]), if_neg (by simp)]
  simp only [hpath, hlower]
  rw [if_neg (by simp)]
  rw [show ('/' :: tail).drop 1 = tail from rfl, normSegs_id h11 [], List.nil_append,
    joinSegs_splitSlashes h10]

theorem noWsHead_reverse_append {a b : Str} (hb : b ≠ []) (h : noWsHead b.reverse) :
    noWsHead (a ++ b).reverse := by
  rw [List.reverse_append]
  exact noWsHead_append_left (by simpa using hb) h

theorem contains_pct_eq_false {l : Str} (h : ∀ c ∈ l, c ≠ '%') :
    l.contains '%' = false := by
  cases hc : l.contains '%' with
  | false => rfl
  | true => exact absurd rfl (h '%' (List.elem_iff.mp hc))

theorem urldecode_no_pct {l : Str} (h : ∀ c ∈ l, c ≠ '%') :
    urldecode l = Except.ok l := by
  unfold urldecode
  rw [if_neg (by simp only [contains_pct_eq_false h]; exact Bool.false_ne_true)]

/-- `Title::from_url` on a canonical desktop or mobile wiki URL built from a
clean lowercase language code and a URL-safe article name: it reduces to the
pair-form parser on `(name, lang)`. -/
theorem from_url_wiki (lang D name : Str)
    (hD : D = "wikipedia.org".data ∨ D = "m.wikipedia.org".data)
    (hl1 : lang ≠ []) (hl2 : ∀ c ∈ lang, LangChar c)
    (hn1 : name ≠ [])
    (hn2 : ∀ c ∈ name, isPathChar c = true)
    (hn3 : ∀ c ∈ name, c ≠ '%')
    (hn5 : noWsHead name.reverse)
    (hge : ∀ c ∈ name, 0x21 ≤ c.toNat)
    (hbs : '\\' ∉ name)
    (hseg : ∀ seg ∈ splitSlashes name, isSingleDot seg = false ∧ isDoubleDot seg = false) :
    Title.from_url ("https://".data ++ (lang ++ '.' :: D) ++ '/' :: ("wiki/".data ++ name)) =
      Title.from_title name lang := by
  have hmem : ∀ (P : Char → Prop), (∀ c, LangChar c → P c) → P '.' → (∀ c ∈ D, P c) →
      ∀ c ∈ lang ++ '.' :: D, P c := by
    intro P pl pd pD c hc
    rcases List.mem_append.mp hc with hc | hc
    · exact pl c (hl2 c hc)
    · rcases List.mem_cons.mp hc with hc | hc
      · subst hc; exact pd
      · exact pD c hc
  have h1 : ∀ c ∈ lang ++ '.' :: D, notAuthDelim c = true := by
    refine hmem _ (fun c h => langChar_authdelim h) (by decide) ?_
    rcases hD with rfl | rfl <;> decide
  have h2 : ∀ c ∈ lang ++ '.' :: D, notAtChar c = true := by
    refine hmem _ (fun c h => langChar_at_pred h) (by decide) ?_
    rcases hD with rfl | rfl <;> decide
  have h4 : ∀ c ∈ lang ++ '.' :: D, validHostChar c = true := by
    refine hmem _ (fun c h => langChar_valid_host h) (by decide) ?_
    rcases hD with rfl | rfl <;> decide
  have h5 : ∀ c ∈ lang ++ '.' :: D, lowerChar c = c := by
    refine hmem _ (fun c h => langChar_lower_fix h) (by decide) ?_
    rcases hD with rfl | rfl <;> decide
  have h3 : ':' ∉ lang ++ '.' :: D := by
    intro hc
    rcases List.mem_append.mp hc with hc | hc
    · exact absurd (hl2 _ hc) (by decide)
    · rcases List.mem_cons.mp hc with hc | hc
      · exact absurd hc (by decide)
      · rcases hD with rfl | rfl <;> revert hc <;> decide
  have hne : lang ++ '.' :: D ≠ [] := by
    cases lang with
    | nil => exact absurd rfl hl1
    | cons a b => simp
  have hlit : ∀ c ∈ ("wiki/".data : Str), isPathChar c = true := by decide
  have h7 : ∀ c ∈ "wiki/".data ++ name, isPathChar c = true := by
    intro c hc
    rcases List.mem_append.mp hc with hc | hc
    · exact hlit c hc
    · exact hn2 c hc
  have h8 : "wiki/".data ++ name ≠ [] := by simp
  have h9 : ∀ c ∈ "wiki/".data ++ name, 0x21 ≤ c.toNat := by
    have hlit9 : ∀ c ∈ ("wiki/".data : Str), 0x21 ≤ c.toNat := by decide
    intro c hc
    rcases List.mem_append.mp hc with hc | hc
    · exact hlit9 c hc
    · exact hge c hc
  have h10 : '\\' ∉ "wiki/".data ++ name := by
    intro hc
    rcases List.mem_append.mp hc with hc | hc
    · exact absurd hc (by decide)
    · exact hbs hc
  have h11 : ∀ seg ∈ splitSlashes ("wiki/".data ++ name),
      isSingleDot seg = false ∧ isDoubleDot seg = false := by
    rw [show ("wiki/".data ++ name : Str) = "wiki".data ++ '/' :: name from rfl,
      splitSlashes_sep name (by decide)]
    intro seg hs
    rcases List.mem_cons.mp hs with rfl | hs
    · exact ⟨by decide, by decide⟩
    · exact hseg seg hs
  have hparse := url_parse_https (lang ++ '.' :: D) ("wiki/".data ++ name)
    hne h1 h2 h3 h4 h5 h7 h8 h9 h10 h11
  have hurl : "https://".data ++ (lang ++ '.' :: D) ++ '/' :: ("wiki/".data ++ name) =
      ("https://".data ++ (lang ++ '.' :: D) ++ '/' :: "wiki/".data) ++ name := by
    simp
  have htrim : trim ("https://".data ++ (lang ++ '.' :: D) ++ '/' :: ("wiki/".data ++ name)) =
      "https://".data ++ (lang ++ '.' :: D) ++ '/' :: ("wiki/".data ++ name) := by
    apply trim_eq_self
    · intro c hc
      rw [show ("https://".data ++ (lang ++ '.' :: D) ++
          '/' :: ("wiki/".data ++ name)).head? = some 'h' from rfl] at hc
      cases hc
      decide
    · rw [hurl]
      exact noWsHead_reverse_append hn1 hn5
  have hdotlang : '.' ∉ lang := fun hc => absurd (hl2 _ hc) (by decide)
  have hstrip : (stripPre "/".data ('/' :: ("wiki/".data ++ name))).getD
      ('/' :: ("wiki/".data ++ name)) = "wiki/".data ++ name := by
    simp [stripPre, startsWith]
  have hwiki : splitOnce '/' ("wiki/".data ++ name) = some ("wiki".data, name) := by
    show splitOnce '/' ("wiki".data ++ '/' :: name) = some ("wiki".data, name)
    exact splitOnce_append_cons name (by decide)
  simp only [Title.from_url, htrim, hparse]
  rw [if_neg (by rw [hurl]; simp [hn1])]
  simp only [splitOnce_append_cons D hdotlang, hstrip, hwiki, urldecode_no_pct hn3]
  rcases hD with rfl | rfl
  · rw [if_neg (by decide), if_neg (by decide)]
  · rw [if_neg (by decide), if_neg (by decide)]

/-- C10: a URL on the bare mobile domain `m.wikipedia.org` does not fail for
a missing language subdomain — the first host label `m` is taken as the
language before the mobile prefix is considered, so parsing succeeds with
`lang = "m"`. -/
theorem bare_mobile_domain_yields_lang_m :
    (∀ name : Str, name ≠ [] →
        (∀ c ∈ name, isPathChar c = true ∧ c ≠ '%' ∧ c ≠ '\\' ∧ isRustWs c = false ∧
          0x21 ≤ c.toNat) →
        (∀ seg ∈ splitSlashes name, isSingleDot seg = false ∧ isDoubleDot seg = false) →
        utf8Len name < 256 →
        Title.from_url ("https://m.wikipedia.org/wiki/".data ++ name) =
          Except.ok ⟨"m".data, name⟩) ∧
    Title.from_url "https://m.wikipedia.org/wiki/Foo".data =
      Except.ok ⟨"m".data, "Foo".data⟩ := by
  constructor
  · intro name hne hc hsegs hlen
    have hn2 : ∀ c ∈ name, isPathChar c = true := fun c h => (hc c h).1
    have hn3 : ∀ c ∈ name, c ≠ '%' := fun c h => (hc c h).2.1
    have hnws : ∀ c ∈ name, isRustWs c = false := fun c h => (hc c h).2.2.2.1
    have hh : noWsHead name := fun c h => hnws c (List.mem_of_mem_head? h)
    have hr : noWsHead name.reverse :=
      fun c h => hnws c (List.mem_reverse.mp (List.mem_of_mem_head? h))
    have hkey := from_url_wiki "m".data "wikipedia.org".data name (Or.inl rfl)
      (by decide) (by decide) hne hn2 hn3 hr
      (fun c h => (hc c h).2.2.2.2) (fun hm => (hc '\\' hm).2.2.1 rfl) hsegs
    have htn : trim name = name := trim_eq_self hh hr
    have hsp : ' ' ∉ name := fun hm => absurd (hnws ' ' hm) (by decide)
    have hrep : replaceChar ' ' '_' name = name :=
      map_eq_self_of (fun x hx => by
        have hxs : x ≠ ' ' := fun he => hsp (he ▸ hx)
        rw [if_neg hxs])
    calc Title.from_url ("https://m.wikipedia.org/wiki/".data ++ name)
        = Title.from_title name "m".data := hkey
      _ = Except.ok ⟨"m".data, name⟩ := by
          rw [from_title_eq (show trim name ≠ [] by rw [htn]; exact hne)
            (show utf8Len (trim name) < 256 by rw [htn]; exact hlen)
            (by decide) (by decide), htn, hrep]
          rfl
  · decide

set_option maxRecDepth 100000 in
/-- Witness for C10: the general mobile-domain statement applied at the
article name `Foo`. -/
theorem bare_mobile_domain_yields_lang_m_witness :
    Title.from_url ("https://m.wikipedia.org/wiki/".data ++ "Foo".data) =
      Except.ok ⟨"m".data, "Foo".data⟩ :=
  bare_mobile_domain_yields_lang_m.1 "Foo".data (by decide) (by decide) (by decide)
    (by decide)

